import Mathlib

/-!
Shallow embedding of `src/main.rs` of the `floormedia_core` repository
(a local development-orchestration launcher), together with theorems
settling the specified properties of its child-process lifecycle and
output-multiplexing subsystem.

Conventions of the embedding:
* bytes are modelled as `Nat` (the `u8` values that occur are small and
  never overflow);
* external effects (the filesystem, the git/npm commands, the child
  output pipes) are passed in explicitly as oracle arguments;
* `panic!` (fatal abort) is modelled with `Except`, carrying the trace of
  external commands executed up to and including the failing one;
* per-byte read results of a child stdout pipe are `Except Unit Nat`
  (`.error` models `io::Error`), mirroring `Read::bytes()`.
-/

namespace FloormediaCore

/-- `SUBSERVER_NAMES` constant of `main.rs` (line 16). -/
def SUBSERVER_NAMES : List String := ["floormedia_frontend", "floormedia_backend"]

/-- `SUBSERVER_BACKEND_I` constant of `main.rs` (line 17). -/
def SUBSERVER_BACKEND_I : Nat := 1

/-! ## Line Framer (`node_run`, lines 221-245)

The tagging thread loops over `child_stdout.bytes()`, pushes each byte
onto `line`, and whenever the byte is `'\n'` (10) writes the accumulated
line (after the queued header) and clears it.  A read error breaks the
loop.  We first embed the pure framing loop on an error-free stream. -/

/-- The framing loop of `node_run`: `line` is the accumulator vector;
a completed line (ending in the newline byte 10) is emitted and the
accumulator cleared; bytes left in the accumulator at end of stream are
dropped. -/
def frameLoop : List Nat → List Nat → List (List Nat)
  | [], _ => []
  | b :: rest, line =>
    let line' := line ++ [b]
    if b == 10 then line' :: frameLoop rest [] else frameLoop rest line'

/-- Lines yielded by the framing loop of `node_run` on byte stream `s`,
starting from an empty accumulator. -/
def frameLines (s : List Nat) : List (List Nat) := frameLoop s []

/-- A complete line: nonempty, ends with the newline byte 10, and
contains no other newline byte. -/
def CompleteLine (l : List Nat) : Prop :=
  ∃ body, l = body ++ [10] ∧ 10 ∉ body

/-- A trailing fragment: contains no newline byte. -/
def NoNewline (l : List Nat) : Prop := 10 ∉ l

theorem frameLoop_noNewline (frag : List Nat) (h : 10 ∉ frag) (line : List Nat) :
    frameLoop frag line = [] := by
  induction frag generalizing line with
  | nil => rfl
  | cons b rest ih =>
    have hb : b ≠ 10 := fun hb => h (hb ▸ List.mem_cons_self b rest)
    have hrest : 10 ∉ rest := fun hm => h (List.mem_cons_of_mem b hm)
    simp only [frameLoop]
    rw [if_neg (by simpa using hb)]
    exact ih hrest _

theorem frameLoop_completeLine (body rest : List Nat) (h : 10 ∉ body)
    (acc : List Nat) :
    frameLoop (body ++ 10 :: rest) acc = (acc ++ body ++ [10]) :: frameLoop rest [] := by
  induction body generalizing acc with
  | nil =>
    simp only [List.nil_append, frameLoop, List.append_nil]
    rw [if_pos (by simp)]
  | cons b body' ih =>
    have hb : b ≠ 10 := fun hb => h (hb ▸ List.mem_cons_self b body')
    have hbody : 10 ∉ body' := fun hm => h (List.mem_cons_of_mem b hm)
    simp only [List.cons_append, frameLoop]
    rw [if_neg (by simpa using hb)]
    simp only [List.append_eq]
    rw [ih hbody (acc ++ [b])]
    simp

/-- **C2** — For every byte stream consisting of complete newline-terminated
lines followed by a trailing fragment containing no newline byte, the Line
Framer loop of `node_run` yields exactly those complete lines, in order and
including their terminating newline bytes, and never yields the fragment. -/
theorem frameLines_complete_lines (lines : List (List Nat)) (frag : List Nat)
    (hlines : ∀ l ∈ lines, CompleteLine l) (hfrag : NoNewline frag) :
    frameLines (lines.flatten ++ frag) = lines := by
  induction lines with
  | nil =>
    simpa [frameLines] using frameLoop_noNewline frag hfrag []
  | cons l ls ih =>
    obtain ⟨body, hl, hbody⟩ := hlines l (List.mem_cons_self l ls)
    have hrest : ∀ l' ∈ ls, CompleteLine l' := fun l' hm =>
      hlines l' (List.mem_cons_of_mem l hm)
    have : frameLines ((l :: ls).flatten ++ frag)
        = frameLoop (body ++ 10 :: (ls.flatten ++ frag)) [] := by
      simp [frameLines, hl]
    rw [this, frameLoop_completeLine body _ hbody []]
    have ihls := ih hrest
    simp only [frameLines] at ihls
    rw [ihls]
    simp [hl]

/-- Witness for C2: the stream `"ab\nc\n" ++ "xy"` (two complete lines and
an unterminated fragment) frames to exactly the two complete lines. -/
theorem frameLines_complete_lines_witness :
    frameLines ([[97, 98, 10], [99, 10]].flatten ++ [120, 121]) = [[97, 98, 10], [99, 10]] :=
  frameLines_complete_lines [[97, 98, 10], [99, 10]] [120, 121]
    (by
      intro l hl
      fin_cases hl
      · exact ⟨[97, 98], rfl, by decide⟩
      · exact ⟨[99], rfl, by decide⟩)
    (by simp [NoNewline])

/-! ## Presence check (`subservers_present`, lines 101-127)

`fs::read_dir(SUBSERVER_DIR)` either fails (modelled `none`) or yields a
list of entries.  Each entry is either an `Err` or has a file name that
fails UTF-8 decoding (both are skipped by `continue`; modelled `none`),
or a readable UTF-8 name (modelled `some name`).  A flag array, one flag
per expected subserver name, starts all-false; an entry whose name equals
an expected name (found by `find_map` over the enumerated name list) sets
that flag; the function returns the conjunction of all flags. -/

/-- Flag update for one directory entry name (`main.rs` lines 111-118):
the first index `i` with `name == SUBSERVER_NAMES[i]` has its flag set. -/
def markEntry (flags : List Bool) (name : String) : List Bool :=
  match SUBSERVER_NAMES.enum.find? (fun p => name == p.2) with
  | some (i, _) => flags.set i true
  | none => flags

/-- The entry loop of `subservers_present` (lines 104-124): `Err` entries
and undecodable names (`none`) are skipped, readable names mark a flag. -/
def presentLoop : List (Option String) → List Bool → List Bool
  | [], flags => flags
  | none :: rest, flags => presentLoop rest flags
  | some name :: rest, flags => presentLoop rest (markEntry flags name)

/-- `subservers_present` (lines 101-127): `none` models `read_dir` failing
(`is_ok_and` then yields `false`); otherwise all flags must end up set. -/
def subservers_present (dir : Option (List (Option String))) : Bool :=
  match dir with
  | none => false
  | some entries =>
    (presentLoop entries (SUBSERVER_NAMES.map fun _ => false)).all id

theorem markEntry_pair (f0 f1 : Bool) (n : String) :
    markEntry [f0, f1] n =
      [f0 || (n == "floormedia_frontend"), f1 || (n == "floormedia_backend")] := by
  by_cases h0 : n = "floormedia_frontend"
  · subst h0
    simp [markEntry, SUBSERVER_NAMES, List.enum, List.find?]
  · have hb0 : (n == "floormedia_frontend") = false := by simp [h0]
    by_cases h1 : n = "floormedia_backend"
    · subst h1
      simp [markEntry, SUBSERVER_NAMES, List.enum, List.find?, hb0]
    · have hb1 : (n == "floormedia_backend") = false := by simp [h1]
      simp [markEntry, SUBSERVER_NAMES, List.enum, List.find?, hb0, hb1]

theorem presentLoop_pair (entries : List (Option String)) (f0 f1 : Bool) :
    presentLoop entries [f0, f1] =
      [f0 || decide (some "floormedia_frontend" ∈ entries),
       f1 || decide (some "floormedia_backend" ∈ entries)] := by
  induction entries generalizing f0 f1 with
  | nil => simp [presentLoop]
  | cons e rest ih =>
    match e with
    | none =>
      rw [presentLoop, ih]
      simp
    | some n =>
      rw [presentLoop, markEntry_pair, ih]
      by_cases h0 : n = "floormedia_frontend"
      · subst h0
        simp [List.mem_cons, Bool.or_assoc]
      · have hb0 : (n == "floormedia_frontend") = false := by simp [h0]
        by_cases h1 : n = "floormedia_backend"
        · subst h1
          simp [List.mem_cons, Bool.or_assoc, hb0, Ne.symm h0]
        · have hb1 : (n == "floormedia_backend") = false := by simp [h1]
          simp [List.mem_cons, hb0, hb1, Ne.symm h0, Ne.symm h1]

theorem subservers_present_some (entries : List (Option String)) :
    subservers_present (some entries) =
      (decide (some "floormedia_frontend" ∈ entries)
        && decide (some "floormedia_backend" ∈ entries)) := by
  have hmap : SUBSERVER_NAMES.map (fun _ => false) = [false, false] := rfl
  simp only [subservers_present, hmap, presentLoop_pair]
  simp [List.all_cons]

/-- **C3** — The presence check returns `false` (Initialize) iff some
expected subserver name is absent from the root directory entries,
including when the root directory cannot be read; it returns `true` (Sync)
iff every expected name is present; and entries matching no expected
descriptor name are ignored. -/
theorem subservers_present_spec :
    (∀ dir : Option (List (Option String)),
        subservers_present dir = true ↔
          ∃ entries, dir = some entries ∧
            ∀ name ∈ SUBSERVER_NAMES, some name ∈ entries) ∧
    (∀ dir : Option (List (Option String)),
        subservers_present dir = false ↔
          dir = none ∨ ∃ entries, dir = some entries ∧
            ∃ name ∈ SUBSERVER_NAMES, some name ∉ entries) ∧
    (∀ (e : Option String) (entries : List (Option String)),
        (∀ name ∈ SUBSERVER_NAMES, e ≠ some name) →
        subservers_present (some (e :: entries)) = subservers_present (some entries)) := by
  have key : ∀ entries : List (Option String),
      subservers_present (some entries) = true ↔
        (some "floormedia_frontend" ∈ entries ∧ some "floormedia_backend" ∈ entries) := by
    intro entries
    rw [subservers_present_some]
    simp
  refine ⟨?_, ?_, ?_⟩
  · intro dir
    match dir with
    | none => simp [subservers_present, SUBSERVER_NAMES]
    | some entries =>
      rw [key entries]
      constructor
      · rintro ⟨hf, hb⟩
        exact ⟨entries, rfl, by
          intro name hn
          simp only [SUBSERVER_NAMES, List.mem_cons, List.mem_singleton] at hn
          rcases hn with h | h | h
          · exact h ▸ hf
          · exact h ▸ hb
          · exact absurd h (List.not_mem_nil name)⟩
      · rintro ⟨entries', heq, hall⟩
        cases heq
        exact ⟨hall _ (by simp [SUBSERVER_NAMES]), hall _ (by simp [SUBSERVER_NAMES])⟩
  · intro dir
    match dir with
    | none => simp [subservers_present]
    | some entries =>
      have hkey := key entries
      constructor
      · intro hfalse
        refine Or.inr ⟨entries, rfl, ?_⟩
        by_contra hno
        push_neg at hno
        have : subservers_present (some entries) = true := by
          rw [key entries]
          exact ⟨hno _ (by simp [SUBSERVER_NAMES]), hno _ (by simp [SUBSERVER_NAMES])⟩
        rw [this] at hfalse
        exact Bool.noConfusion hfalse
      · rintro (h | ⟨entries', heq, name, hn, habs⟩)
        · exact absurd h (by simp)
        · cases heq
          cases hsp : subservers_present (some entries) with
          | false => rfl
          | true =>
            have := (key entries).mp hsp
            simp only [SUBSERVER_NAMES, List.mem_cons, List.mem_singleton] at hn
            rcases hn with h | h | h
            · exact absurd (h ▸ this.1) habs
            · exact absurd (h ▸ this.2) habs
            · exact absurd h (List.not_mem_nil name)
  · intro e entries hnomatch
    have hf := hnomatch "floormedia_frontend" (by simp [SUBSERVER_NAMES])
    have hb := hnomatch "floormedia_backend" (by simp [SUBSERVER_NAMES])
    rw [subservers_present_some, subservers_present_some]
    simp [List.mem_cons, Ne.symm hf, Ne.symm hb]

/-- Witness for C3, on the directory sets of the spec: `{A, B}` plus an
ignored stranger gives Sync (`true`), `{A}` gives Initialize (`false`),
and an unreadable root gives Initialize (`false`). -/
theorem subservers_present_spec_witness :
    subservers_present (some [some "floormedia_frontend", some "stranger",
        some "floormedia_backend"]) = true ∧
    subservers_present (some [some "floormedia_frontend"]) = false ∧
    subservers_present none = false := by
  refine ⟨?_, ?_, ?_⟩
  · exact (subservers_present_spec.1 _).mpr
      ⟨_, rfl, by intro name hn; fin_cases hn <;> simp⟩
  · exact (subservers_present_spec.2.1 _).mpr
      (Or.inr ⟨_, rfl, "floormedia_backend", by simp [SUBSERVER_NAMES], by simp⟩)
  · exact (subservers_present_spec.2.1 _).mpr (Or.inl rfl)

/-! ## Argument parsing (`ParsedArgs`, lines 31-78) -/

/-- `ParsedArgs` struct (lines 31-35). -/
structure ParsedArgs where
  distinguish_child_stdouts : Bool
  server_alternate_port : Option Nat
  deriving Repr, DecidableEq

/-- Rust `str::parse::<u16>` (used at line 52): an optional leading `+`,
then one or more ASCII digits, with value at most `u16::MAX`; anything
else fails. -/
def parse_u16 (s : String) : Option Nat :=
  let ds := match s.toList with
    | '+' :: rest => rest
    | l => l
  if ds ≠ [] ∧ ds.all (·.isDigit) then
    let n := ds.foldl (fun a c => a * 10 + (c.toNat - 48)) 0
    if n < 65536 then some n else none
  else none

/-- The argument loop of `ParsedArgs::from` (lines 43-75), over the tokens
after `skip(1)`.  After `"backend_port" | "-bp"`, `value.next()` is always
consumed as the port value; a missing or unparsable value prints a warning
and continues. -/
def parseArgsLoop : List String → ParsedArgs → ParsedArgs
  | [], out => out
  | arg :: rest, out =>
    if arg = "inherit_stdouts" ∨ arg = "-m" then
      parseArgsLoop rest { out with distinguish_child_stdouts := false }
    else if arg = "backend_port" ∨ arg = "-bp" then
      match rest with
      | [] => out
      | v :: rest' =>
        match parse_u16 v with
        | none => parseArgsLoop rest' out
        | some port =>
          parseArgsLoop rest' { out with server_alternate_port := some port }
    else parseArgsLoop rest out

/-- `ParsedArgs::from` on the full argv: line 38 `skip(1)` drops the
program name, lines 39-42 give the initial state. -/
def parsedArgsFrom (argv : List String) : ParsedArgs :=
  parseArgsLoop (argv.drop 1) ⟨true, none⟩

/-- **C10** — The parser always consumes the token following
`backend_port`/`-bp` as the port value, even when that token is itself a
recognized flag: `["-bp", "-m"]` leaves output capture enabled and sets no
override port (`-m` is never processed as a flag), the same holds for the
other recognized flags in value position, and with no arguments capture is
enabled with no override port. -/
theorem parsedArgsFrom_spec :
    parsedArgsFrom ["floormedia_core", "-bp", "-m"] = ⟨true, none⟩ ∧
    parsedArgsFrom ["floormedia_core"] = ⟨true, none⟩ ∧
    parsedArgsFrom ["floormedia_core", "-bp", "inherit_stdouts"] = ⟨true, none⟩ ∧
    parsedArgsFrom ["floormedia_core", "-bp", "-bp"] = ⟨true, none⟩ ∧
    parsedArgsFrom ["floormedia_core", "-bp", "backend_port"] = ⟨true, none⟩ := by
  refine ⟨?_, ?_, ?_, ?_, ?_⟩ <;> rfl

/-! ## Start command of `node_run` (lines 177-196) -/

/-- The `npm` argument list built by `node_run` (lines 178-188): `start`,
then `["--", "-p=<port>"]` exactly when an alternate port is set and this
descriptor is the one at `SUBSERVER_BACKEND_I`. -/
def node_run_cmd_args (name : String) (args : ParsedArgs) : List String :=
  "start" ::
    (match args.server_alternate_port with
     | some port =>
       if name == SUBSERVER_NAMES[SUBSERVER_BACKEND_I]! then
         ["--", "-p=" ++ toString port]
       else []
     | none => [])

/-- A start-command token that passes a port: of the form `-p=<...>`. -/
def isPortArg (s : String) : Bool := s.toList.take 3 == ['-', 'p', '=']

/-- **C5** — With an override port `p`, the start command of the descriptor
at the designated backend index (index 1, name `floormedia_backend`)
contains the port argument `-p=<p>`, while every other descriptor's start
command contains no port argument; with no override port, no start command
contains a port argument. -/
theorem node_run_cmd_args_port (name : String) (p : Nat) (a : ParsedArgs) :
    (a.server_alternate_port = some p →
        name = SUBSERVER_NAMES[SUBSERVER_BACKEND_I]! →
        ("-p=" ++ toString p) ∈ node_run_cmd_args name a) ∧
    (a.server_alternate_port = some p →
        name ≠ SUBSERVER_NAMES[SUBSERVER_BACKEND_I]! →
        ∀ s ∈ node_run_cmd_args name a, isPortArg s = false) ∧
    (a.server_alternate_port = none →
        ∀ s ∈ node_run_cmd_args name a, isPortArg s = false) := by
  refine ⟨?_, ?_, ?_⟩
  · intro hport hname
    subst hname
    simp [node_run_cmd_args, hport]
  · intro hport hname
    have hbeq : (name == SUBSERVER_NAMES[SUBSERVER_BACKEND_I]!) = false :=
      beq_eq_false_iff_ne.mpr hname
    intro s hs
    simp [node_run_cmd_args, hport, hbeq] at hs
    subst hs
    decide
  · intro hport
    intro s hs
    simp [node_run_cmd_args, hport] at hs
    subst hs
    decide

/-- Witness for C5 at override port 4000: backend gets the port argument,
frontend gets none, and with no override the backend gets none. -/
theorem node_run_cmd_args_port_witness :
    ("-p=" ++ toString 4000) ∈ node_run_cmd_args "floormedia_backend" ⟨true, some 4000⟩ ∧
    (∀ s ∈ node_run_cmd_args "floormedia_frontend" ⟨true, some 4000⟩,
        isPortArg s = false) ∧
    (∀ s ∈ node_run_cmd_args "floormedia_backend" ⟨true, none⟩,
        isPortArg s = false) :=
  ⟨(node_run_cmd_args_port "floormedia_backend" 4000 ⟨true, some 4000⟩).1 rfl (by decide),
   (node_run_cmd_args_port "floormedia_frontend" 4000 ⟨true, some 4000⟩).2.1 rfl (by decide),
   (node_run_cmd_args_port "floormedia_backend" 4000 ⟨true, none⟩).2.2 rfl⟩

/-! ## Base URL computation (`get_base_url`, lines 80-91)

`trim_end_matches(|c| c != '/')` repeatedly strips the last character
while it is not `/`: it removes the longest (all-non-`/`) suffix.  This is
`List.rdropWhile`, which is literally `reverse ∘ dropWhile p ∘ reverse`. -/

/-- `get_base_url` applied to the stdout `s` of
`git config --get remote.origin.url` (lines 80-91). -/
def get_base_url (s : String) : String :=
  ⟨List.rdropWhile (fun c => c != '/') s.toList⟩

/-- **C7** — The computed base URL is the remote-URL stdout truncated after
its last `/`: the result is a prefix of the input whose removed suffix
contains no `/`, the result is empty or ends in `/`; in particular it is
empty when the input has no `/`, and is the whole input when the input
ends in `/`. -/
theorem get_base_url_spec (s : String) :
    (∃ t, s.toList = (get_base_url s).toList ++ t ∧ '/' ∉ t) ∧
    ((get_base_url s).toList = [] ∨ (get_base_url s).toList.getLast? = some '/') ∧
    ('/' ∉ s.toList → get_base_url s = "") ∧
    (s.toList.getLast? = some '/' → get_base_url s = s) := by
  set p : Char → Bool := fun c => c != '/' with hp
  refine ⟨?_, ?_, ?_, ?_⟩
  · refine ⟨List.rtakeWhile p s.toList, ?_, ?_⟩
    · have hdec : List.rdropWhile p s.toList ++ List.rtakeWhile p s.toList = s.toList := by
        rw [List.rdropWhile, List.rtakeWhile, ← List.reverse_append,
          List.takeWhile_append_dropWhile, List.reverse_reverse]
      show s.toList = List.rdropWhile p s.toList ++ List.rtakeWhile p s.toList
      exact hdec.symm
    · intro hmem
      have := List.mem_rtakeWhile_imp hmem
      simp [hp] at this
  · rcases eq_or_ne (List.rdropWhile p s.toList) [] with h | h
    · left
      exact h
    · right
      have hlast := List.rdropWhile_last_not p s.toList h
      have hslash : (List.rdropWhile p s.toList).getLast h = '/' := by
        by_contra hne
        apply hlast
        simp only [hp, bne_iff_ne, ne_eq]
        exact hne
      have hsame : (get_base_url s).toList = List.rdropWhile p s.toList := rfl
      rw [hsame, List.getLast?_eq_getLast _ h, hslash]
  · intro hno
    have hnil : List.rdropWhile p s.toList = [] := by
      rw [List.rdropWhile_eq_nil_iff]
      intro x hx
      have hxne : x ≠ '/' := fun hx' => hno (hx' ▸ hx)
      simp [hp, hxne]
    show (⟨List.rdropWhile p s.toList⟩ : String) = ""
    exact (congrArg String.mk hnil).trans rfl
  · intro hlast
    have hne : s.toList ≠ [] := by
      intro h
      rw [h] at hlast
      exact Option.noConfusion hlast
    have hl : s.toList.getLast hne = '/' := by
      have h2 := List.getLast?_eq_getLast s.toList hne
      rw [h2] at hlast
      exact Option.some.inj hlast
    have hself : List.rdropWhile p s.toList = s.toList := by
      rw [List.rdropWhile_eq_self_iff]
      intro h
      simp only [hp, bne_iff_ne, ne_eq, decide_not, Bool.not_eq_true, decide_eq_false_iff_not,
        Decidable.not_not]
      exact hl
    show (⟨List.rdropWhile p s.toList⟩ : String) = s
    exact (congrArg String.mk hself).trans rfl

/-- Witness for C7: the three corner inputs — a real remote URL (prefix
decomposition), a slash-free string (empty result), a string ending in `/`
(identity). -/
theorem get_base_url_spec_witness :
    (∃ t, ("https://github.com/SciDev5/floormedia_core").toList =
        (get_base_url "https://github.com/SciDev5/floormedia_core").toList ++ t ∧
        '/' ∉ t) ∧
    get_base_url "floormedia" = "" ∧
    get_base_url "https://github.com/SciDev5/" = "https://github.com/SciDev5/" :=
  ⟨(get_base_url_spec "https://github.com/SciDev5/floormedia_core").1,
   (get_base_url_spec "floormedia").2.2.1 (by decide),
   (get_base_url_spec "https://github.com/SciDev5/").2.2.2 (by decide)⟩

/-! ## External command model (`git_clone`, `git_pull`, `node_build`,
`subservers_initialize`, `subservers_sync`; lines 128-143, 155-176, 264-305)

Each external invocation is a `Cmd`; the oracle `env : Cmd → Bool` gives
its exit status (`true` = success) and `pullOut : String → String` gives
the stdout of `git pull` for each subserver (the code reads stdout only
for pulls).  Every function threads the trace of commands executed so
far; `panic!` becomes `Except.error` carrying the trace up to and
including the failing command, so an `error` trace is exactly what ran
before the abort. -/

/-- One external command invocation of `main.rs`. -/
inductive Cmd where
  | clone (name : String)
  | install (name : String)
  | build (name : String)
  | pull (name : String)
  deriving Repr, DecidableEq

/-- `node_build` (lines 155-176): `npm install`, panic on failure, then
`npm run build`, panic on failure. -/
def node_build (env : Cmd → Bool) (name : String) (t : List Cmd) :
    Except (List Cmd) (List Cmd) :=
  let t1 := t ++ [Cmd.install name]
  if env (Cmd.install name) then
    let t2 := t1 ++ [Cmd.build name]
    if env (Cmd.build name) then .ok t2 else .error t2
  else .error t1

/-- The loop of `git_clone` (lines 266-281): clone each subserver in
order, panicking on the first failing clone. -/
def git_cloneGo (env : Cmd → Bool) : List String → List Cmd → Except (List Cmd) (List Cmd)
  | [], t => .ok t
  | n :: rest, t =>
    let t1 := t ++ [Cmd.clone n]
    if env (Cmd.clone n) then git_cloneGo env rest t1 else .error t1

/-- `node_build` over a list of names (the loops at lines 134-136 and
140-142). -/
def node_buildGo (env : Cmd → Bool) : List String → List Cmd → Except (List Cmd) (List Cmd)
  | [], t => .ok t
  | n :: rest, t =>
    match node_build env n t with
    | .error e => .error e
    | .ok t1 => node_buildGo env rest t1

/-- `subservers_initialize` (lines 128-137): clone every subserver, then
install-and-build every subserver unconditionally. -/
def subservers_initialize (env : Cmd → Bool) : Except (List Cmd) (List Cmd) :=
  match git_cloneGo env SUBSERVER_NAMES [] with
  | .error e => .error e
  | .ok t => node_buildGo env SUBSERVER_NAMES t

/-- The loop of `git_pull` (lines 283-305): pull each subserver in order,
panicking on a non-success status; a pull whose trimmed stdout equals
`"Already up to date."` is classified unchanged (`filter_map` drops it),
any other stdout classifies the name as updated. -/
def git_pullGo (env : Cmd → Bool) (pullOut : String → String) :
    List String → List Cmd → Except (List Cmd) (List Cmd × List String)
  | [], t => .ok (t, [])
  | n :: rest, t =>
    let t1 := t ++ [Cmd.pull n]
    if env (Cmd.pull n) then
      match git_pullGo env pullOut rest t1 with
      | .error e => .error e
      | .ok (t2, upd) =>
        .ok (t2, if (pullOut n).trim == "Already up to date." then upd else n :: upd)
    else .error t1

/-- `subservers_sync` (lines 138-143): pull every subserver, then
install-and-build exactly the updated ones, in order. -/
def subservers_sync (env : Cmd → Bool) (pullOut : String → String) :
    Except (List Cmd) (List Cmd) :=
  match git_pullGo env pullOut SUBSERVER_NAMES [] with
  | .error e => .error e
  | .ok (t, upd) => node_buildGo env upd t

theorem git_pullGo_ok (env : Cmd → Bool) (pullOut : String → String)
    (names : List String) (t : List Cmd)
    (hsucc : ∀ n ∈ names, env (Cmd.pull n) = true) :
    ∃ upd, git_pullGo env pullOut names t = .ok (t ++ names.map Cmd.pull, upd) ∧
      ∀ n, n ∈ upd ↔ (n ∈ names ∧ (pullOut n).trim ≠ "Already up to date.") := by
  induction names generalizing t with
  | nil => exact ⟨[], by simp [git_pullGo], by simp⟩
  | cons m rest ih =>
    have hm := hsucc m (List.mem_cons_self m rest)
    obtain ⟨upd, hupd, hiff⟩ := ih (t ++ [Cmd.pull m])
      (fun n hn => hsucc n (List.mem_cons_of_mem m hn))
    refine ⟨if (pullOut m).trim == "Already up to date." then upd else m :: upd, ?_, ?_⟩
    · rw [git_pullGo]
      rw [if_pos hm, hupd]
      simp
    · intro n
      by_cases hcl : (pullOut m).trim = "Already up to date."
      · rw [if_pos (by simpa using hcl)]
        rw [hiff n]
        constructor
        · rintro ⟨hn, hne⟩
          exact ⟨List.mem_cons_of_mem m hn, hne⟩
        · rintro ⟨hn, hne⟩
          rcases List.mem_cons.mp hn with h | h
          · exact absurd (h ▸ hcl) hne
          · exact ⟨h, hne⟩
      · rw [if_neg (by simpa using hcl)]
        constructor
        · intro hn
          rcases List.mem_cons.mp hn with h | h
          · exact ⟨h ▸ List.mem_cons_self m rest, h ▸ hcl⟩
          · obtain ⟨h1, h2⟩ := (hiff n).mp h
            exact ⟨List.mem_cons_of_mem m h1, h2⟩
        · rintro ⟨hn, hne⟩
          rcases List.mem_cons.mp hn with h | h
          · exact h ▸ List.mem_cons_self m upd
          · exact List.mem_cons_of_mem m ((hiff n).mpr ⟨h, hne⟩)

theorem node_buildGo_all_ok (env : Cmd → Bool) (names : List String) (t : List Cmd)
    (hok : ∀ n ∈ names, env (Cmd.install n) = true ∧ env (Cmd.build n) = true) :
    node_buildGo env names t =
      .ok (t ++ names.flatMap fun n => [Cmd.install n, Cmd.build n]) := by
  induction names generalizing t with
  | nil => simp [node_buildGo]
  | cons m rest ih =>
    obtain ⟨hi, hb⟩ := hok m (List.mem_cons_self m rest)
    rw [node_buildGo, node_build]
    simp only [hi, if_true, hb]
    rw [ih (t ++ [Cmd.install m] ++ [Cmd.build m])
      (fun n hn => hok n (List.mem_cons_of_mem m hn))]
    simp

/-- **C4** — During Sync, a pull is classified unchanged iff its stdout
equals exactly `"Already up to date."` after trimming, and updated for any
other output; and the install-and-build sequence is invoked for a
descriptor iff it was classified updated (when the pulls succeed, the sync
trace is the pulls followed by install-and-build of exactly the updated
names, in order). -/
theorem subservers_sync_classification (env : Cmd → Bool) (pullOut : String → String)
    (hsucc : ∀ n ∈ SUBSERVER_NAMES, env (Cmd.pull n) = true) :
    ∃ upd,
      git_pullGo env pullOut SUBSERVER_NAMES [] =
        .ok (SUBSERVER_NAMES.map Cmd.pull, upd) ∧
      (∀ n, n ∈ upd ↔ (n ∈ SUBSERVER_NAMES ∧ (pullOut n).trim ≠ "Already up to date.")) ∧
      ((∀ n ∈ upd, env (Cmd.install n) = true ∧ env (Cmd.build n) = true) →
        subservers_sync env pullOut =
          .ok (SUBSERVER_NAMES.map Cmd.pull ++
            upd.flatMap fun n => [Cmd.install n, Cmd.build n])) := by
  obtain ⟨upd, hupd, hiff⟩ := git_pullGo_ok env pullOut SUBSERVER_NAMES [] hsucc
  refine ⟨upd, by simpa using hupd, hiff, ?_⟩
  intro hbuild
  rw [subservers_sync, hupd]
  simp only []
  rw [node_buildGo_all_ok env upd _ hbuild]
  simp

/-- Witness for C4, at the literal pull outputs of the spec:
`"Already up to date.\n"` for the frontend (unchanged after trimming) and
`"Updating a1b2c3..def456"` for the backend (updated), all statuses
successful: the sync trace pulls both and builds only the backend. -/
theorem subservers_sync_classification_witness :
    ∃ upd,
      git_pullGo (fun _ => true)
          (fun n => if n = "floormedia_frontend" then "Already up to date.\n"
            else "Updating a1b2c3..def456") SUBSERVER_NAMES [] =
        .ok (SUBSERVER_NAMES.map Cmd.pull, upd) ∧
      (∀ n, n ∈ upd ↔ (n ∈ SUBSERVER_NAMES ∧
        ((if n = "floormedia_frontend" then "Already up to date.\n"
          else "Updating a1b2c3..def456") : String).trim ≠ "Already up to date.")) ∧
      ((∀ n ∈ upd, (fun _ => true) (Cmd.install n) = true ∧
          (fun _ => true) (Cmd.build n) = true) →
        subservers_sync (fun _ => true)
            (fun n => if n = "floormedia_frontend" then "Already up to date.\n"
              else "Updating a1b2c3..def456") =
          .ok (SUBSERVER_NAMES.map Cmd.pull ++
            upd.flatMap fun n => [Cmd.install n, Cmd.build n])) :=
  subservers_sync_classification (fun _ => true)
    (fun n => if n = "floormedia_frontend" then "Already up to date.\n"
      else "Updating a1b2c3..def456")
    (fun _ _ => rfl)

theorem node_build_ok (env : Cmd → Bool) (n : String) (t t' : List Cmd)
    (h : node_build env n t = .ok t') :
    t' = t ++ [Cmd.install n, Cmd.build n] ∧
      env (Cmd.install n) = true ∧ env (Cmd.build n) = true := by
  by_cases hi : env (Cmd.install n) = true
  · by_cases hb : env (Cmd.build n) = true
    · simp only [node_build, hi, if_true, hb] at h
      injection h with h'
      subst h'
      exact ⟨by simp, hi, hb⟩
    · simp only [node_build, hi, if_true, if_neg hb] at h
      exact absurd h (by simp)
  · simp only [node_build, if_neg hi] at h
    exact absurd h (by simp)

theorem node_build_error (env : Cmd → Bool) (n : String) (t : List Cmd)
    (e : List Cmd) (hinv : ∀ c ∈ t, env c = true)
    (h : node_build env n t = .error e) :
    ∃ t0 c, e = t0 ++ [c] ∧ env c = false ∧ ∀ c' ∈ t0, env c' = true := by
  by_cases hi : env (Cmd.install n) = true
  · by_cases hb : env (Cmd.build n) = true
    · simp only [node_build, hi, if_true, hb] at h
      exact absurd h (by simp)
    · simp only [node_build, hi, if_true, if_neg hb] at h
      injection h with h'
      refine ⟨t ++ [Cmd.install n], Cmd.build n, by rw [← h'], 
        by simpa using hb, ?_⟩
      intro c hc
      rcases List.mem_append.mp hc with h1 | h1
      · exact hinv c h1
      · rw [List.mem_singleton.mp h1]; exact hi
  · simp only [node_build, if_neg hi] at h
    injection h with h'
    exact ⟨t, Cmd.install n, h'.symm, by simpa using hi, hinv⟩

theorem git_cloneGo_error (env : Cmd → Bool) :
    ∀ (names : List String) (t e : List Cmd),
      (∀ c ∈ t, env c = true) → git_cloneGo env names t = .error e →
      ∃ t0 c, e = t0 ++ [c] ∧ env c = false ∧ ∀ c' ∈ t0, env c' = true := by
  intro names
  induction names with
  | nil =>
    intro t e _ h
    exact absurd h (by simp [git_cloneGo])
  | cons m rest ih =>
    intro t e hinv h
    simp only [git_cloneGo] at h
    by_cases hm : env (Cmd.clone m) = true
    · rw [if_pos hm] at h
      refine ih _ e ?_ h
      intro c hc
      rcases List.mem_append.mp hc with h1 | h1
      · exact hinv c h1
      · rw [List.mem_singleton.mp h1]; exact hm
    · rw [if_neg hm] at h
      injection h with h'
      exact ⟨t, Cmd.clone m, h'.symm, by simpa using hm, hinv⟩

theorem git_cloneGo_ok_inv (env : Cmd → Bool) :
    ∀ (names : List String) (t t' : List Cmd),
      git_cloneGo env names t = .ok t' → (∀ c ∈ t, env c = true) →
      ∀ c ∈ t', env c = true := by
  intro names
  induction names with
  | nil =>
    intro t t' h hinv
    simp only [git_cloneGo] at h
    injection h with h'
    exact h' ▸ hinv
  | cons m rest ih =>
    intro t t' h hinv
    simp only [git_cloneGo] at h
    by_cases hm : env (Cmd.clone m) = true
    · rw [if_pos hm] at h
      refine ih _ t' h ?_
      intro c hc
      rcases List.mem_append.mp hc with h1 | h1
      · exact hinv c h1
      · rw [List.mem_singleton.mp h1]; exact hm
    · rw [if_neg hm] at h
      exact absurd h (by simp)

theorem node_buildGo_error (env : Cmd → Bool) :
    ∀ (names : List String) (t e : List Cmd),
      (∀ c ∈ t, env c = true) → node_buildGo env names t = .error e →
      ∃ t0 c, e = t0 ++ [c] ∧ env c = false ∧ ∀ c' ∈ t0, env c' = true := by
  intro names
  induction names with
  | nil =>
    intro t e _ h
    exact absurd h (by simp [node_buildGo])
  | cons m rest ih =>
    intro t e hinv h
    simp only [node_buildGo] at h
    cases hnb : node_build env m t with
    | error e0 =>
      rw [hnb] at h
      injection h with h'
      exact h' ▸ node_build_error env m t e0 hinv hnb
    | ok t1 =>
      rw [hnb] at h
      obtain ⟨ht1, hi, hb⟩ := node_build_ok env m t t1 hnb
      refine ih t1 e ?_ h
      intro c hc
      rw [ht1] at hc
      rcases List.mem_append.mp hc with h1 | h1
      · exact hinv c h1
      · rcases List.mem_cons.mp h1 with h2 | h2
        · rw [h2]; exact hi
        · rw [List.mem_singleton.mp h2]; exact hb

theorem git_pullGo_error (env : Cmd → Bool) (pullOut : String → String) :
    ∀ (names : List String) (t e : List Cmd),
      (∀ c ∈ t, env c = true) → git_pullGo env pullOut names t = .error e →
      ∃ t0 c, e = t0 ++ [c] ∧ env c = false ∧ ∀ c' ∈ t0, env c' = true := by
  intro names
  induction names with
  | nil =>
    intro t e _ h
    exact absurd h (by simp [git_pullGo])
  | cons m rest ih =>
    intro t e hinv h
    simp only [git_pullGo] at h
    by_cases hm : env (Cmd.pull m) = true
    · rw [if_pos hm] at h
      have hext : ∀ c ∈ t ++ [Cmd.pull m], env c = true := by
        intro c hc
        rcases List.mem_append.mp hc with h1 | h1
        · exact hinv c h1
        · rw [List.mem_singleton.mp h1]; exact hm
      cases hrec : git_pullGo env pullOut rest (t ++ [Cmd.pull m]) with
      | error e0 =>
        rw [hrec] at h
        injection h with h'
        exact h' ▸ ih _ e0 hext hrec
      | ok p =>
        rw [hrec] at h
        exact absurd h (by simp)
    · rw [if_neg hm] at h
      injection h with h'
      exact ⟨t, Cmd.pull m, h'.symm, by simpa using hm, hinv⟩

theorem git_pullGo_ok_inv (env : Cmd → Bool) (pullOut : String → String) :
    ∀ (names : List String) (t t' : List Cmd) (upd : List String),
      git_pullGo env pullOut names t = .ok (t', upd) → (∀ c ∈ t, env c = true) →
      ∀ c ∈ t', env c = true := by
  intro names
  induction names with
  | nil =>
    intro t t' upd h hinv
    simp only [git_pullGo] at h
    injection h with h'
    injection h' with h1 h2
    exact h1 ▸ hinv
  | cons m rest ih =>
    intro t t' upd h hinv
    simp only [git_pullGo] at h
    by_cases hm : env (Cmd.pull m) = true
    · rw [if_pos hm] at h
      have hext : ∀ c ∈ t ++ [Cmd.pull m], env c = true := by
        intro c hc
        rcases List.mem_append.mp hc with h1 | h1
        · exact hinv c h1
        · rw [List.mem_singleton.mp h1]; exact hm
      cases hrec : git_pullGo env pullOut rest (t ++ [Cmd.pull m]) with
      | error e0 =>
        rw [hrec] at h
        exact absurd h (by simp)
      | ok p =>
        rw [hrec] at h
        injection h with h'
        have := ih _ p.1 p.2 (by rw [hrec]) hext
        have hfst : p.1 = t' := by
          have := congrArg Prod.fst h'
          simpa using this
        exact hfst ▸ this
    · rw [if_neg hm] at h
      exact absurd h (by simp)

/-- **C6** — Every external clone, pull, install, or build command that
returns a non-success exit status aborts the entire program immediately:
the executed-command trace carried by the abort ends at the failing
command, every command before it succeeded, and nothing runs after it —
no retry, no continuation to later descriptors or later phases, in either
the Initialize or the Sync pipeline. -/
theorem external_failure_aborts (env : Cmd → Bool) (pullOut : String → String) :
    (∀ e, subservers_initialize env = .error e →
      ∃ t0 c, e = t0 ++ [c] ∧ env c = false ∧ ∀ c' ∈ t0, env c' = true) ∧
    (∀ e, subservers_sync env pullOut = .error e →
      ∃ t0 c, e = t0 ++ [c] ∧ env c = false ∧ ∀ c' ∈ t0, env c' = true) := by
  constructor
  · intro e h
    rw [ subservers_initialize] at h
    cases hc : git_cloneGo env SUBSERVER_NAMES [] with
    | error e0 =>
      rw [hc] at h
      injection h with h'
      exact h' ▸ git_cloneGo_error env SUBSERVER_NAMES [] e0 (by simp) hc
    | ok t =>
      rw [hc] at h
      exact node_buildGo_error env SUBSERVER_NAMES t e
        (git_cloneGo_ok_inv env SUBSERVER_NAMES [] t hc (by simp)) h
  · intro e h
    rw [subservers_sync] at h
    cases hp : git_pullGo env pullOut SUBSERVER_NAMES [] with
    | error e0 =>
      rw [hp] at h
      injection h with h'
      exact h' ▸ git_pullGo_error env pullOut SUBSERVER_NAMES [] e0 (by simp) hp
    | ok p =>
      rw [hp] at h
      exact node_buildGo_error env p.2 p.1 e
        (git_pullGo_ok_inv env pullOut SUBSERVER_NAMES [] p.1 p.2 (by rw [hp]) (by simp)) h

/-- Witness for C6: with an environment where `npm install` of the
frontend fails and everything else succeeds, Initialize aborts right after
`[clone frontend, clone backend, install frontend]`, with both clones
having succeeded and nothing after the failing install. -/
theorem external_failure_aborts_witness :
    ∃ t0 c,
      [Cmd.clone "floormedia_frontend", Cmd.clone "floormedia_backend",
        Cmd.install "floormedia_frontend"] = t0 ++ [c] ∧
      (fun c => decide (c ≠ Cmd.install "floormedia_frontend")) c = false ∧
      ∀ c' ∈ t0, (fun c => decide (c ≠ Cmd.install "floormedia_frontend")) c' = true :=
  (external_failure_aborts (fun c => decide (c ≠ Cmd.install "floormedia_frontend"))
      (fun _ => "")).1
    [Cmd.clone "floormedia_frontend", Cmd.clone "floormedia_backend",
      Cmd.install "floormedia_frontend"]
    (by rfl)

/-! ## Stream Tagger output (`node_run`, lines 198-256)

The tagging thread emits, in order: a start-of-stdout marker, one tagged
line per framed line, and an end-of-stdout marker emitted after the byte
loop whether the stream ended normally or via a read error (the `Err`
arm at lines 224-227 runs `dbg!` and `break`s; the marker at lines
246-255 follows the loop unconditionally, and the thread closure returns
normally in every case — a read error is never propagated). -/

/-- One logical output unit of a tagging thread for child `name`. -/
inductive OutChunk where
  | startMarker (name : String)
  | taggedLine (name : String) (line : List Nat)
  | endMarker (name : String)
  deriving Repr, DecidableEq

/-- The byte loop of the tagging thread (lines 221-245) over the read
results of `child_stdout.bytes()`: an `Err` breaks the loop, an `Ok` byte
is accumulated, and a completed line is emitted. -/
def tagLoop (name : String) : List (Except Unit Nat) → List Nat → List OutChunk
  | [], _ => []
  | .error _ :: _, _ => []
  | .ok b :: rest, line =>
    let line' := line ++ [b]
    if b == 10 then OutChunk.taggedLine name line' :: tagLoop name rest []
    else tagLoop name rest line'

/-- The full output of one tagging thread (lines 211-255). -/
def taggerOutput (name : String) (stream : List (Except Unit Nat)) : List OutChunk :=
  OutChunk.startMarker name :: (tagLoop name stream [] ++ [OutChunk.endMarker name])

/-- The bytes of a stream before its first read error. -/
def okPrefix : List (Except Unit Nat) → List Nat
  | [] => []
  | .error _ :: _ => []
  | .ok b :: rest => b :: okPrefix rest

theorem tagLoop_eq_frameLoop (name : String) (stream : List (Except Unit Nat))
    (line : List Nat) :
    tagLoop name stream line =
      (frameLoop (okPrefix stream) line).map (OutChunk.taggedLine name) := by
  induction stream generalizing line with
  | nil => rfl
  | cons e rest ih =>
    match e with
    | .error () => rfl
    | .ok b =>
      simp only [tagLoop, okPrefix, frameLoop]
      by_cases hb : (b == 10) = true
      · rw [if_pos hb, if_pos hb]
        simp [ih]
      · rw [if_neg hb, if_neg hb]
        exact ih (line ++ [b])

/-- **C8** — When a read error occurs on a child's stdout stream, that
child's tagging loop stops at the first error: exactly the complete lines
among the bytes before the error are tagged and written, the end-of-stream
marker is still emitted as the last output unit, and the tagger returns
normally (it is a total function of its own stream alone, so the error
aborts nothing else: the coordinator and every other child's tagger are
untouched). -/
theorem taggerOutput_read_error (name : String) (stream : List (Except Unit Nat))
    (h : Except.error () ∈ stream) :
    taggerOutput name stream =
      OutChunk.startMarker name ::
        ((frameLines (okPrefix stream)).map (OutChunk.taggedLine name) ++
          [OutChunk.endMarker name]) ∧
    (taggerOutput name stream).getLast? = some (OutChunk.endMarker name) := by
  constructor
  · rw [taggerOutput, tagLoop_eq_frameLoop]
    rfl
  · rw [taggerOutput, ← List.cons_append, List.getLast?_concat]

/-- Witness for C8: a stream whose fourth read fails after the complete
line `"a\n"` and a buffered `b`; the output is the start marker, the one
complete line before the error, and the end marker. -/
theorem taggerOutput_read_error_witness :
    taggerOutput "floormedia_frontend"
        [.ok 97, .ok 10, .ok 98, .error (), .ok 99] =
      OutChunk.startMarker "floormedia_frontend" ::
        ((frameLines (okPrefix [.ok 97, .ok 10, .ok 98, .error (), .ok 99])).map
            (OutChunk.taggedLine "floormedia_frontend") ++
          [OutChunk.endMarker "floormedia_frontend"]) ∧
    (taggerOutput "floormedia_frontend"
        [.ok 97, .ok 10, .ok 98, .error (), .ok 99]).getLast? =
      some (OutChunk.endMarker "floormedia_frontend") :=
  taggerOutput_read_error "floormedia_frontend"
    [.ok 97, .ok 10, .ok 98, .error (), .ok 99] (by simp)

/-! ## Shared-sink write atomicity (`node_run`, lines 228-244)

For one framed line the tagging thread issues several separate write
calls on the shared stdout handle: the two queued header prints and the
queued single space (lines 232-238), then `write_all` of the raw line
bytes (line 239), then `flush` (line 241, no bytes of its own); the
markers printed via `execute!` are likewise several calls.  Each call
locks the shared handle only for its own duration — the code holds no
lock across the calls of one line.  We model each single write call as
one atomic chunk and the shared sink as an arbitrary order-preserving
interleaving of the concurrent threads' chunk sequences; this is
generous to the claim, since the underlying line-buffered writer cannot
give more atomicity than one call. -/

/-- The separate atomic write calls `node_run` makes for one framed line:
queued header part 0, queued header part 1, the queued single space
(byte 32), and the `write_all` of the raw line bytes. -/
def lineWrites (h0 h1 line : List Nat) : List (List Nat) :=
  [h0, h1, [32], line]

/-- `Interleaving a b z`: `z` is an order-preserving interleaving of the
write-call sequences `a` and `b` of two concurrent threads. -/
inductive Interleaving :
    List (List Nat) → List (List Nat) → List (List Nat) → Prop
  | nil : Interleaving [] [] []
  | left {x a b z} : Interleaving a b z → Interleaving (x :: a) b (x :: z)
  | right {y a b z} : Interleaving a b z → Interleaving a (y :: b) (y :: z)

theorem Interleaving.sublist_left {a b z : List (List Nat)}
    (h : Interleaving a b z) : a.Sublist z := by
  induction h with
  | nil => exact List.Sublist.slnil
  | left _ ih => exact ih.cons₂ _
  | right _ ih => exact ih.cons _

theorem Interleaving.sublist_right {a b z : List (List Nat)}
    (h : Interleaving a b z) : b.Sublist z := by
  induction h with
  | nil => exact List.Sublist.slnil
  | left _ ih => exact ih.cons _
  | right _ ih => exact ih.cons₂ _

/-- Counterexample to C1 as stated: with two tagging threads each
emitting one tagged line through the four separate write calls of the
code, there is an interleaving of the write calls in which thread A's
tagged line (tag, separator, space, raw line bytes) does NOT appear as a
contiguous byte run — thread B's writes land between A's queued header
and A's line bytes. -/
theorem lineWrites_not_atomic_counterexample :
    ∃ z, Interleaving (lineWrites [1] [2] [65, 10]) (lineWrites [3] [4] [66, 10]) z ∧
      ¬ ([1] ++ [2] ++ [32] ++ [65, 10]) <:+: z.flatten := by
  refine ⟨[[1], [3], [4], [32], [66, 10], [2], [32], [65, 10]], ?_, ?_⟩
  · exact .left (.right (.right (.right (.right (.left (.left (.left .nil)))))))
  · decide

/-- **C1 (amended)** — Per-write-call atomicity: in every interleaving of
two tagging threads' write calls, each thread's call sequence appears as
an order-preserving subsequence, and each single call's bytes — in
particular the raw line bytes written by the one `write_all` — appear as
a contiguous run in the final byte stream.  The tagged line as a whole
(tag, separator glyph, space, line bytes) spans several calls with no
lock held across them, so its contiguity is not guaranteed. -/
theorem lineWrites_per_call_atomic (h0a h1a la h0b h1b lb : List Nat)
    (z : List (List Nat))
    (h : Interleaving (lineWrites h0a h1a la) (lineWrites h0b h1b lb) z) :
    (lineWrites h0a h1a la).Sublist z ∧
    (lineWrites h0b h1b lb).Sublist z ∧
    la <:+: z.flatten ∧ lb <:+: z.flatten := by
  refine ⟨h.sublist_left, h.sublist_right, ?_, ?_⟩
  · exact List.infix_of_mem_flatten
      (h.sublist_left.subset (by simp [lineWrites]))
  · exact List.infix_of_mem_flatten
      (h.sublist_right.subset (by simp [lineWrites]))

/-- Witness for the amended C1 at the counterexample's interleaving. -/
theorem lineWrites_per_call_atomic_witness :
    (lineWrites [1] [2] [65, 10]).Sublist
        [[1], [3], [4], [32], [66, 10], [2], [32], [65, 10]] ∧
    (lineWrites [3] [4] [66, 10]).Sublist
        [[1], [3], [4], [32], [66, 10], [2], [32], [65, 10]] ∧
    [65, 10] <:+: ([[1], [3], [4], [32], [66, 10], [2], [32], [65, 10]] :
        List (List Nat)).flatten ∧
    [66, 10] <:+: ([[1], [3], [4], [32], [66, 10], [2], [32], [65, 10]] :
        List (List Nat)).flatten :=
  lineWrites_per_call_atomic [1] [2] [65, 10] [3] [4] [66, 10]
    [[1], [3], [4], [32], [66, 10], [2], [32], [65, 10]]
    (.left (.right (.right (.right (.right (.left (.left (.left .nil))))))))

/-! ## Launch phase and tagging-task lifetime (`subservers_run` lines
144-153, `node_run` lines 198-261, `main` lines 20-29)

`node_run` starts each tagging thread with `thread::spawn` (line 199) and
drops the returned `JoinHandle`; `subservers_run` keeps only the `Child`
handles and waits on those (lines 150-152), and `main` returns right
after `subservers_run`.  Nothing anywhere joins the tagging threads.
When `main` returns the process exits and detached threads are killed
wherever they happen to be, so a tagging thread that has not yet drained
its (still buffered) pipe after the child exited is killed mid-way: the
chunks actually in the sink at exit are only SOME prefix of the task's
full output — the program enforces nothing more. -/

/-- A possible visible output of one tagging task at process exit: the
task is never joined, so any prefix of its full output may be all that
was written when `main` returned and the process died. -/
def visibleAtExit (name : String) (stream : List (Except Unit Nat))
    (visible : List OutChunk) : Prop :=
  visible <+: taggerOutput name stream

/-- **C9** (code bug) — The program does not enforce the claimed full
drain: for a child that produced the single line `"a\n"`, the empty
output is a possible visible output at process exit (the never-joined
tagging thread may be killed before writing anything once both children
have been waited on and `main` returns), and it is missing the buffered
line and both markers of the full output. -/
theorem taggingTask_may_lose_output :
    visibleAtExit "floormedia_frontend" [.ok 97, .ok 10] [] ∧
    [] ≠ taggerOutput "floormedia_frontend" [.ok 97, .ok 10] := by
  constructor
  · exact List.nil_prefix
  · simp [taggerOutput]

end FloormediaCore
